import Mathlib

set_option maxHeartbeats 1000000

/-! Shallow embedding of the doc-agent repository: the POST route handler
(src/unnamed/part_000) and the deterministic tool implementations of
src/utils/agent.ts (list_files, extract_text_content's HTML branch,
analyze_document, search_document, save_analysis). JavaScript strings are
modelled as Lean strings over their character lists; regex scans are
implemented as the explicit left-to-right scans the engine performs on the
concrete patterns in the source. -/

/-! JavaScript string primitives shared by the tools. -/

/-- Characters matched by the JavaScript regex class backslash-s (ASCII range). -/
def isJsWhitespace (c : Char) : Bool :=
  c = ' ' || c = '\t' || c = '\n' || c = '\r' || c = '\x0b' || c = '\x0c'

/-- Characters matched by the JavaScript regex class backslash-w. -/
def isWordChar (c : Char) : Bool :=
  c.isAlpha || c.isDigit || c = '_'

/-- List-level model of JavaScript String.prototype.trim. -/
def jsTrimList (l : List Char) : List Char :=
  ((l.dropWhile isJsWhitespace).reverse.dropWhile isJsWhitespace).reverse

/-- Model of JavaScript String.prototype.trim. -/
def jsTrim (s : String) : String := String.mk (jsTrimList s.toList)

/-! The POST route handler of src/unnamed/part_000. The body is destructured
into prompt, filePath and content; a falsy prompt is rejected with 400 before
the try block; the agent call happens inside the try block, whose catch
returns the generic 500 response. Crucially, request.json() is awaited
before the try block, so a body that fails to parse makes the handler throw. -/

/-- JSON values, used to model response bodies and the saved analysis file. -/
inductive JsonVal where
  | str (s : String)
  | num (n : Int)
  | arr (elems : List JsonVal)
  | obj (fields : List (String × JsonVal))

/-- Destructured request body fields; a missing field is none. -/
structure RequestBody where
  prompt : Option String
  filePath : Option String
  content : Option String

/-- Outcome of one handler invocation: an HTTP response, or an exception
escaping the handler. -/
inductive HandlerOutcome where
  | response (status : Nat) (body : JsonVal)
  | thrown

/-- JavaScript truthiness of a possibly-absent string field: an absent field
(undefined) and the empty string are falsy. -/
def falsyStr : Option String → Bool
  | none => true
  | some s => s == ""

/-- The composite prompt: filePath wins over content, content over the bare
prompt, with JavaScript truthiness deciding presence. -/
def buildFullPrompt (prompt : String) (filePath content : Option String) : String :=
  if !falsyStr filePath then
    prompt ++ " (Document: " ++ filePath.getD "" ++ ")"
  else if !falsyStr content then
    prompt ++ "\n\nDocument content:\n" ++ content.getD ""
  else prompt

/-- Body of the 400 response for a missing prompt. -/
def promptRequiredBody : JsonVal := .obj [("error", .str "Prompt is required")]

/-- Body of the generic 500 response. -/
def genericErrorBody : JsonVal := .obj [("error", .str "An error occurred processing the document")]

/-- Body of the 200 success response relaying the agent's text. -/
def successBody (text : String) : JsonVal := .obj [("response", .str text)]

/-- Model of the POST route handler. parsed is none when request.json()
throws (a malformed body), which happens before the try block. agent models
documentAgent: ok carries the final text, error a thrown failure. The second
component records the prompts actually passed to the agent. -/
def handlePOST (parsed : Option RequestBody) (agent : String → Except Unit String) :
    HandlerOutcome × List String :=
  match parsed with
  | none => (.thrown, [])
  | some b =>
    if falsyStr b.prompt then
      (.response 400 promptRequiredBody, [])
    else
      let fullPrompt := buildFullPrompt (b.prompt.getD "") b.filePath b.content
      match agent fullPrompt with
      | .ok text => (.response 200 (successBody text), [fullPrompt])
      | .error _ => (.response 500 genericErrorBody, [fullPrompt])

/-! The list_files tool of src/utils/agent.ts. The filesystem read is passed
in as a function, and the second result component records the directory
paths actually read together with the recursive flag passed to readdirSync
(always false in the source). -/

/-- Result shapes returned by list_files.execute. -/
inductive ListFilesResult where
  | protectedErr (error : String) (generatedPath : String)
  | ok (path : String) (output : List String)
  | fsErr (error : String)

/-- The directory actually listed: a path that trims to nonempty is used as
given, otherwise the current directory. -/
def listFilesTarget : Option String → String
  | some s => if jsTrim s ≠ "" then s else "."
  | none => "."

/-- Model of list_files.execute. fsRead models fs.readdirSync; the trace
records each (path, recursive) readdir call performed. -/
def list_files_execute (fsRead : String → Except String (List String))
    (generatedPath : Option String) : ListFilesResult × List (String × Bool) :=
  if generatedPath = some ".git" ∨ generatedPath = some "node_modules" then
    (.protectedErr "Cannot list protected path" (generatedPath.getD ""), [])
  else
    let targetPath := listFilesTarget generatedPath
    match fsRead targetPath with
    | .ok output => (.ok targetPath output, [(targetPath, false)])
    | .error e => (.fsErr e, [(targetPath, false)])

/-! The HTML branch of extract_text_content (src/utils/agent.ts lines
160 to 168): strip script blocks, replace each tag with a space, collapse
whitespace runs, trim. Each regex replacement is implemented as the scan the
engine performs for that concrete pattern. -/

/-- Case-insensitive character comparison (the regex i flag, ASCII scope). -/
def ciEq (a b : Char) : Bool := a.toLower == b.toLower

/-- Case-insensitive list-prefix test. -/
def startsWithCI : List Char → List Char → Bool
  | [], _ => true
  | _ :: _, [] => false
  | p :: ps, c :: cs => ciEq p c && startsWithCI ps cs

/-- Suffix of the list after the first case-insensitive occurrence of pat,
if pat occurs at all. -/
def dropAfterMatchCI (pat : List Char) : List Char → Option (List Char)
  | [] => if startsWithCI pat [] then some [] else none
  | c :: t =>
    if startsWithCI pat (c :: t) then some ((c :: t).drop pat.length)
    else dropAfterMatchCI pat t

/-- Removal of every script block: a case-insensitive occurrence of <script
followed by a word boundary, through the first subsequent closing
</script> (the source pattern matches exactly that); an opener with no
closer matches nothing. Fuel bounds the recursion; callers pass the list
length, and every recursive call strictly shrinks the list. -/
def stripScriptBlocksAux : Nat → List Char → List Char
  | 0, l => l
  | _ + 1, [] => []
  | fuel + 1, c :: rest =>
    if startsWithCI ("<script".toList) (c :: rest)
        && (match (c :: rest).drop 7 with
            | [] => true
            | d :: _ => !isWordChar d) then
      match dropAfterMatchCI ("</script>".toList) ((c :: rest).drop 7) with
      | some suffix => stripScriptBlocksAux fuel suffix
      | none => c :: stripScriptBlocksAux fuel rest
    else c :: stripScriptBlocksAux fuel rest

/-- Replacement of each tag (an opening angle bracket through the first
closing angle bracket) with a single space; an unclosed bracket leaves the
remainder untouched, as no further tag pattern can match without a closing
bracket. -/
def replaceTagsAux : Nat → List Char → List Char
  | 0, l => l
  | _ + 1, [] => []
  | fuel + 1, c :: rest =>
    if c = '<' then
      match dropAfterMatchCI ['>'] rest with
      | some suffix => ' ' :: replaceTagsAux fuel suffix
      | none => c :: rest
    else c :: replaceTagsAux fuel rest

/-- Collapse of each maximal whitespace run to one space. -/
def collapseWsAux : Nat → List Char → List Char
  | 0, l => l
  | _ + 1, [] => []
  | fuel + 1, c :: rest =>
    if isJsWhitespace c then ' ' :: collapseWsAux fuel (rest.dropWhile isJsWhitespace)
    else c :: collapseWsAux fuel rest

/-- Model of the .html/.htm case of extract_text_content.execute: strip
script blocks, replace tags with spaces, collapse whitespace, trim. -/
def extractHtmlText (raw : String) : String :=
  let l1 := stripScriptBlocksAux raw.toList.length raw.toList
  let l2 := replaceTagsAux l1.length l1
  let l3 := collapseWsAux l2.length l2
  String.mk (jsTrimList l3)

/-! The analyze_document tool (src/utils/agent.ts lines 183 to 236):
sentence fragments and summary, entity regex scans, and topic frequency
ranking. -/

/-- Sentence terminator characters of the split pattern. -/
def isSentenceTerm (c : Char) : Bool := c = '.' || c = '!' || c = '?'

/-- JavaScript String.prototype.split on a character class: n separator
characters produce n+1 pieces, empty pieces included. The source splits on
runs of terminators, which differs from the single-character split only by
extra empty pieces, and every piece is filtered by trimmed length afterwards,
so the filtered results coincide. -/
def splitOnPred (p : Char → Bool) : List Char → List (List Char)
  | [] => [[]]
  | c :: t =>
    if p c then [] :: splitOnPred p t
    else
      match splitOnPred p t with
      | [] => [[c]]
      | w :: ws => (c :: w) :: ws

/-- Sentence fragments: split on terminators, keeping pieces whose trimmed
length exceeds 10. -/
def fragmentsOf (content : String) : List (List Char) :=
  (splitOnPred isSentenceTerm content.toList).filter (fun s => (jsTrimList s).length > 10)

/-- JavaScript Array.prototype.join. -/
def jsJoin (sep : String) : List String → String
  | [] => ""
  | [x] => x
  | x :: y :: t => x ++ sep ++ jsJoin sep (y :: t)

/-- Summary computation: the fragment at index 0, at half the length rounded
down, and at length minus one (out-of-range indices give undefined and
filter(Boolean) also removes empty strings), each trimmed, joined with
". " and a trailing period appended. -/
def summaryOf (content : String) : String :=
  let fragments := fragmentsOf content
  let picked := [fragments.get? 0, fragments.get? (fragments.length / 2),
                 fragments.get? (fragments.length - 1)]
  let kept := (picked.filterMap id).filter (fun s => s ≠ [])
  jsJoin ". " (kept.map (fun s => String.mk (jsTrimList s))) ++ "."

/-- Tokens of the content: lowercased, punctuation removed (characters
neither word characters nor whitespace), split on whitespace runs, empties
removed. -/
def wordsOf (content : String) : List String :=
  ((splitOnPred isJsWhitespace
      ((content.toList.map Char.toLower).filter (fun c => isWordChar c || isJsWhitespace c))).filter
    (fun w => w ≠ [])).map String.mk

/-- The fixed stopword set of analyze_document. -/
def stopWords : List String :=
  ["the", "a", "an", "and", "or", "but", "in", "on", "at", "to", "for", "of", "with", "by",
   "is", "are", "was", "were", "be", "been", "have", "has", "had", "do", "does", "did", "will",
   "would", "could", "should"]

/-- Tokens counted for the topic ranking: longer than 3 characters and not
stopwords. -/
def countedWords (content : String) : List String :=
  (wordsOf content).filter (fun w => w.length > 3 && !(stopWords.contains w))

/-- One step of the frequency update on an insertion-ordered association
list: an existing key is incremented in place, a new key is appended. -/
def bumpFreq : List (String × Nat) → String → List (String × Nat)
  | [], w => [(w, 1)]
  | (k, n) :: t, w => if k = w then (k, n + 1) :: t else (k, n) :: bumpFreq t w

/-- Insertion-ordered frequency entries of the token list. -/
def freqEntries (ws : List String) : List (String × Nat) := ws.foldl bumpFreq []

/-- Numeric value of a digit string. -/
def digitsValue (l : List Char) : Nat :=
  l.foldl (fun acc c => acc * 10 + (c.toNat - 48)) 0

/-- Canonical array-index strings: all digits, no leading zero except the
string 0 itself, value below 2^32 - 1. ECMAScript orders such object keys
first, numerically ascending, ahead of ordinary string keys. -/
def isArrayIndexStr (s : String) : Bool :=
  let l := s.toList
  !l.isEmpty && l.all Char.isDigit && (s == "0" || l.head? != some '0') &&
    decide (digitsValue l < 4294967295)

/-- Insertion into a list kept ascending by numeric key value. -/
def insertAscByVal (x : String × Nat) : List (String × Nat) → List (String × Nat)
  | [] => [x]
  | y :: t =>
    if digitsValue x.1.toList < digitsValue y.1.toList then x :: y :: t
    else y :: insertAscByVal x t

/-- ECMAScript own-property key order of the frequency record, as observed
by Object.entries: canonical array-index keys numerically ascending, then
the remaining keys in insertion order. -/
def jsOwnKeyOrder (entries : List (String × Nat)) : List (String × Nat) :=
  ((entries.filter (fun kv => isArrayIndexStr kv.1)).foldl
      (fun acc x => insertAscByVal x acc) []) ++
    entries.filter (fun kv => !isArrayIndexStr kv.1)

/-- Stable insertion into a list kept descending by count: an element goes
before the first strictly smaller count and after equal counts already
placed. -/
def insertByCountDesc (x : String × Nat) : List (String × Nat) → List (String × Nat)
  | [] => [x]
  | y :: t => if x.2 ≥ y.2 then x :: y :: t else y :: insertByCountDesc x t

/-- Stable descending sort by count, the behaviour of Array.prototype.sort
with the comparator (a, b) => b - a (the ECMAScript sort is stable). -/
def sortByCountDesc (l : List (String × Nat)) : List (String × Nat) :=
  l.foldr insertByCountDesc []

/-- Topics as computed by the code: frequency entries in own-key order,
stably sorted by descending count, first 10 keys. -/
def topicsOf (content : String) : List String :=
  ((sortByCountDesc (jsOwnKeyOrder (freqEntries (countedWords content)))).take 10).map Prod.fst

/-- Topics as the spec describes them: counted tokens ranked by descending
occurrence count with ties in first-encountered order (the insertion order
of the frequency entries), first 10. -/
def specTopicsOf (content : String) : List String :=
  ((sortByCountDesc (freqEntries (countedWords content))).take 10).map Prod.fst

/-- ASCII uppercase letters. -/
def isAsciiUpper (c : Char) : Bool := 'A' ≤ c && c ≤ 'Z'

/-- ASCII lowercase letters. -/
def isAsciiLower (c : Char) : Bool := 'a' ≤ c && c ≤ 'z'

/-- ASCII letters. -/
def isAsciiAlpha (c : Char) : Bool := isAsciiUpper c || isAsciiLower c

/-- Scan for the capitalized-word pattern (word boundary, one uppercase
letter, one or more lowercase letters, word boundary); prev carries the
character before the current position for the boundary test, and fuel is the
list length. -/
def capsScanAux : Nat → Option Char → List Char → List String
  | 0, _, _ => []
  | _ + 1, _, [] => []
  | fuel + 1, prev, c :: rest =>
    let boundaryOk : Bool :=
      match prev with
      | none => true
      | some p => !isWordChar p
    if boundaryOk && isAsciiUpper c then
      let run := rest.takeWhile isAsciiLower
      let after := rest.drop run.length
      if !run.isEmpty &&
          (match after with
           | [] => true
           | d :: _ => !isWordChar d) then
        String.mk (c :: run) :: capsScanAux fuel (some (run.getLastD c)) after
      else
        capsScanAux fuel (some c) rest
    else capsScanAux fuel (some c) rest

/-- Capitalized-word matches of the content, left to right. -/
def capsMatches (content : String) : List String :=
  capsScanAux content.toList.length none content.toList

/-- Global regex scan: at each position try matchAt, which returns the match
length (always at least one for the patterns modelled); on success the match
is collected and the scan resumes after it, on failure the scan advances one
character. -/
def scanMatchesAux (matchAt : List Char → Option Nat) : Nat → List Char → List String
  | 0, _ => []
  | _ + 1, [] => []
  | fuel + 1, c :: rest =>
    match matchAt (c :: rest) with
    | some len => String.mk ((c :: rest).take len) :: scanMatchesAux matchAt fuel ((c :: rest).drop len)
    | none => scanMatchesAux matchAt fuel rest

/-- Characters of the email local part class. -/
def isEmailLocalChar (c : Char) : Bool :=
  isAsciiAlpha c || c.isDigit || c = '.' || c = '_' || c = '%' || c = '+' || c = '-'

/-- Characters of the email domain class. -/
def isEmailDomainChar (c : Char) : Bool :=
  isAsciiAlpha c || c.isDigit || c = '.' || c = '-'

/-- Attempted email match at a position: a greedy nonempty local part
(whose run is forced, since an at-sign is not a local character), the
at-sign, then the greedy domain part backtracks to the last dot preceded by
at least one domain character (the plus quantifier forbids an empty prefix,
so the dot cannot sit directly after the at-sign) and followed by at least
two letters, which run greedily. -/
def emailMatchAt (l : List Char) : Option Nat :=
  let loc := l.takeWhile isEmailLocalChar
  if loc.isEmpty then none
  else
    match l.drop loc.length with
    | '@' :: rest =>
      let dom := rest.takeWhile isEmailDomainChar
      if dom.isEmpty then none
      else
        match (List.range dom.length).reverse.find? (fun k =>
            decide (1 ≤ k) && dom.get? k == some '.' &&
            decide (((rest.drop (k + 1)).takeWhile isAsciiAlpha).length ≥ 2)) with
        | some k =>
          some (loc.length + 1 + k + 1 + ((rest.drop (k + 1)).takeWhile isAsciiAlpha).length)
        | none => none
    | _ => none

/-- Digits one to nine. -/
def isOneToNine (c : Char) : Bool := '1' ≤ c && c ≤ '9'

/-- Attempted phone match at a position: an optional plus, an optional
leading one-to-nine digit, then 10 or 11 further digits taken greedily, with
the optional digit given up when too few digits remain. -/
def phoneMatchAt (l : List Char) : Option Nat :=
  let plusLen := if l.head? == some '+' then 1 else 0
  let afterPlus := l.drop plusLen
  let run := afterPlus.takeWhile Char.isDigit
  let n := run.length
  match afterPlus.head? with
  | some d =>
    if isOneToNine d && n ≥ 11 then some (plusLen + 1 + min (n - 1) 11)
    else if n ≥ 10 then some (plusLen + min n 11)
    else none
  | none => none

/-- Attempted URL match at a position: http, an optional s, the scheme
separator, then a greedy nonempty run of non-whitespace characters. -/
def urlMatchAt (l : List Char) : Option Nat :=
  if l.take 4 == "http".toList then
    let sLen := if (l.drop 4).head? == some 's' then 1 else 0
    let afterScheme := l.drop (4 + sLen)
    if afterScheme.take 3 == "://".toList then
      let run := (afterScheme.drop 3).takeWhile (fun c => !isJsWhitespace c)
      if run.isEmpty then none else some (4 + sLen + 3 + run.length)
    else none
  else none

/-- Email regex matches of the content. -/
def emailMatches (content : String) : List String :=
  scanMatchesAux emailMatchAt content.toList.length content.toList

/-- Phone regex matches of the content. -/
def phoneMatches (content : String) : List String :=
  scanMatchesAux phoneMatchAt content.toList.length content.toList

/-- URL regex matches of the content. -/
def urlMatches (content : String) : List String :=
  scanMatchesAux urlMatchAt content.toList.length content.toList

/-- Helper of dedupFirst carrying the elements already seen. -/
def dedupFirstAux (seen : List String) : List String → List String
  | [] => []
  | x :: t =>
    if seen.contains x then dedupFirstAux seen t
    else x :: dedupFirstAux (x :: seen) t

/-- Spreading a JavaScript Set built from a list: keeps the first occurrence
of each element, in insertion order. -/
def dedupFirst (l : List String) : List String := dedupFirstAux [] l

/-- Concatenated raw entity matches in contribution order: the first 20
capitalized-word matches, then emails, phones and URLs. -/
def entityCandidates (content : String) : List String :=
  (capsMatches content).take 20 ++ emailMatches content ++
    phoneMatches content ++ urlMatches content

/-- Entities of the content: the candidates deduplicated through a Set. -/
def entitiesOf (content : String) : List String := dedupFirst (entityCandidates content)

/-- The analyzeType enumeration of analyze_document. -/
inductive AnalyzeType where
  | full
  | summary_only
  | entities_only
  | topics_only
deriving DecidableEq

/-- The analysisData object returned by analyze_document.execute. -/
structure AnalysisOutput where
  wordCount : Nat
  summary : Option String
  entities : Option (List String)
  topics : Option (List String)
deriving DecidableEq

/-- Model of analyze_document.execute: the word count is always present,
and summary, entities and topics are filled in for the modes that compute
them. -/
def analyze_document_execute (content : String) (analyzeType : AnalyzeType) : AnalysisOutput :=
  { wordCount := (wordsOf content).length
    summary :=
      if analyzeType = .full ∨ analyzeType = .summary_only then some (summaryOf content) else none
    entities :=
      if analyzeType = .full ∨ analyzeType = .entities_only then some (entitiesOf content) else none
    topics :=
      if analyzeType = .full ∨ analyzeType = .topics_only then some (topicsOf content) else none }

/-! The search_document tool (src/utils/agent.ts lines 237 to 260). The
query is escaped so the constructed regex matches the query literally,
case-insensitively; the exec loop collects non-overlapping matches left to
right, each with a trimmed context window. -/

/-- One match entry of search_document. -/
structure SearchMatch where
  text : String
  position : Nat
deriving DecidableEq

/-- The full result object of search_document.execute; matchList models the
matches array (matches is a reserved word in Lean). -/
structure SearchResult where
  query : String
  matchList : List SearchMatch
  totalMatches : Nat
deriving DecidableEq

/-- Offset of the first case-insensitive occurrence of pat in the list. -/
def findIndexCI (pat : List Char) : List Char → Option Nat
  | [] => if startsWithCI pat [] then some 0 else none
  | c :: t =>
    if startsWithCI pat (c :: t) then some 0
    else (findIndexCI pat t).map (· + 1)

/-- The clamped context window around a match at pos of the given length:
slice from max(0, pos - ctx) to min(content length, pos + qlen + ctx). -/
def contextWindow (content : List Char) (pos qlen ctx : Nat) : List Char :=
  (content.drop (pos - ctx)).take (min content.length (pos + qlen + ctx) - (pos - ctx))

/-- The exec loop of search_document: from index i, find the next
case-insensitive occurrence of the query, record its trimmed context window
and position, and continue after the match. Fuel bounds the loop; a
zero-length query makes the source loop forever, mirrored here by the fuel
running out. -/
def searchScanAux (content q : List Char) (ctx : Nat) : Nat → Nat → List SearchMatch
  | 0, _ => []
  | fuel + 1, i =>
    match findIndexCI q (content.drop i) with
    | none => []
    | some off =>
      { text := String.mk (jsTrimList (contextWindow content (i + off) q.length ctx)),
        position := i + off } :: searchScanAux content q ctx fuel (i + off + q.length)

/-- Model of search_document.execute. -/
def search_document_execute (content query : String) (contextLength : Nat) : SearchResult :=
  let ms := searchScanAux content.toList query.toList contextLength (content.toList.length + 1) 0
  { query := query, matchList := ms, totalMatches := ms.length }

/-! The save_analysis tool (src/utils/agent.ts lines 261 to 286). The
payload written to outputPath is the schema-validated analysis data spread
into a fresh object with one generatedAt field appended; the written JSON
and its parse are modelled at the level of the JSON value. -/

/-- The analysisData input accepted by the save_analysis schema. -/
structure AnalysisData where
  filename : String
  summary : String
  keyPoints : Option (List String)
  entities : Option (List String)
  topics : Option (List String)
  wordCount : Int
  sourceFile : String

/-- A JSON array of strings. -/
def strListJson (l : List String) : JsonVal := .arr (l.map JsonVal.str)

/-- JSON object fields of the validated analysisData, keys in schema order,
optional keys omitted when absent. -/
def analysisDataJson (d : AnalysisData) : List (String × JsonVal) :=
  [("filename", JsonVal.str d.filename), ("summary", JsonVal.str d.summary)] ++
    (match d.keyPoints with | some l => [("keyPoints", strListJson l)] | none => []) ++
    (match d.entities with | some l => [("entities", strListJson l)] | none => []) ++
    (match d.topics with | some l => [("topics", strListJson l)] | none => []) ++
    [("wordCount", JsonVal.num d.wordCount), ("sourceFile", JsonVal.str d.sourceFile)]

/-- Model of save_analysis.execute: the object serialized to outputPath. -/
def save_analysis_payload (d : AnalysisData) (nowIso : String) : List (String × JsonVal) :=
  analysisDataJson d ++ [("generatedAt", JsonVal.str nowIso)]

/-- Modelled from the spec: the broken-down UTC time of the Date value
behind new Date().toISOString(); the Date implementation is platform code
absent from the repository, and the runtime guarantees calendar-valid
fields. -/
structure DateTime where
  year : Nat
  month : Nat
  day : Nat
  hour : Nat
  minute : Nat
  second : Nat
  millis : Nat

/-- Field ranges every runtime Date value satisfies (four-digit years cover
the toISOString simple format). -/
def DateTime.Valid (t : DateTime) : Prop :=
  t.year ≤ 9999 ∧ 1 ≤ t.month ∧ t.month ≤ 12 ∧ 1 ≤ t.day ∧ t.day ≤ 31 ∧
    t.hour ≤ 23 ∧ t.minute ≤ 59 ∧ t.second ≤ 59 ∧ t.millis ≤ 999

instance (t : DateTime) : Decidable t.Valid := by
  unfold DateTime.Valid
  infer_instance

/-- Modelled from the spec: Date.prototype.toISOString, producing the
24-character zero-padded UTC form YYYY-MM-DDTHH:MM:SS.mmmZ. -/
def toISOString (t : DateTime) : String :=
  String.mk
    [Nat.digitChar (t.year / 1000 % 10), Nat.digitChar (t.year / 100 % 10),
     Nat.digitChar (t.year / 10 % 10), Nat.digitChar (t.year % 10), '-',
     Nat.digitChar (t.month / 10 % 10), Nat.digitChar (t.month % 10), '-',
     Nat.digitChar (t.day / 10 % 10), Nat.digitChar (t.day % 10), 'T',
     Nat.digitChar (t.hour / 10 % 10), Nat.digitChar (t.hour % 10), ':',
     Nat.digitChar (t.minute / 10 % 10), Nat.digitChar (t.minute % 10), ':',
     Nat.digitChar (t.second / 10 % 10), Nat.digitChar (t.second % 10), '.',
     Nat.digitChar (t.millis / 100 % 10), Nat.digitChar (t.millis / 10 % 10),
     Nat.digitChar (t.millis % 10), 'Z']

/-- Numeric value of an ASCII digit character. -/
def digitVal (c : Char) : Nat := c.toNat - 48

/-- Structural validity of an ISO-8601 UTC timestamp in the exact
24-character form toISOString produces: digits and separators in place and
month, day, hour, minute and second in range. -/
def isValidISO8601 (s : String) : Bool :=
  match s.toList with
  | [y1, y2, y3, y4, dash1, m1, m2, dash2, d1, d2, tSep, h1, h2, colon1, mi1, mi2,
     colon2, s1, s2, dotSep, ms1, ms2, ms3, zSep] =>
    [y1, y2, y3, y4, m1, m2, d1, d2, h1, h2, mi1, mi2, s1, s2, ms1, ms2, ms3].all Char.isDigit &&
      dash1 == '-' && dash2 == '-' && tSep == 'T' && colon1 == ':' && colon2 == ':' &&
      dotSep == '.' && zSep == 'Z' &&
      decide (1 ≤ 10 * digitVal m1 + digitVal m2) && decide (10 * digitVal m1 + digitVal m2 ≤ 12) &&
      decide (1 ≤ 10 * digitVal d1 + digitVal d2) && decide (10 * digitVal d1 + digitVal d2 ≤ 31) &&
      decide (10 * digitVal h1 + digitVal h2 ≤ 23) &&
      decide (10 * digitVal mi1 + digitVal mi2 ≤ 59) &&
      decide (10 * digitVal s1 + digitVal s2 ≤ 59)
  | _ => false

/-- Summary as the spec describes it: the trimmed fragments at index 0, at
half the fragment count rounded down, and at the count minus one, joined
with ". " and followed by a trailing period. -/
def specSummaryOf (content : String) : String :=
  String.mk (jsTrimList ((fragmentsOf content).getD 0 [])) ++ ". " ++
    String.mk (jsTrimList ((fragmentsOf content).getD ((fragmentsOf content).length / 2) [])) ++
    ". " ++
    String.mk (jsTrimList ((fragmentsOf content).getD ((fragmentsOf content).length - 1) [])) ++
    "."

/-! Claim theorems for the request handler and list_files. -/

/-- C1 counterexample: a request whose body fails to parse is not answered
with the generic 500 response; the exception escapes the handler, because
request.json() is awaited before the try block. -/
theorem post_malformed_body_not_500 :
    (handlePOST none (fun _ => Except.ok "ok")).1 = HandlerOutcome.thrown ∧
    (handlePOST none (fun _ => Except.ok "ok")).1 ≠ HandlerOutcome.response 500 genericErrorBody := by
  refine ⟨rfl, ?_⟩
  intro h
  exact HandlerOutcome.noConfusion h

/-- C1 amended: once the request body parses, the handler never throws and
produces only the 400 prompt-required response, a 200 success response, or
the generic 500 response; a body that fails JSON parsing escapes the handler
uncaught. -/
theorem post_handler_failure_modes (b : RequestBody) (agent : String → Except Unit String) :
    (handlePOST none agent).1 = HandlerOutcome.thrown ∧
    (handlePOST (some b) agent).1 ≠ HandlerOutcome.thrown ∧
    ((handlePOST (some b) agent).1 = HandlerOutcome.response 400 promptRequiredBody ∨
     (∃ t, (handlePOST (some b) agent).1 = HandlerOutcome.response 200 (successBody t)) ∨
     (handlePOST (some b) agent).1 = HandlerOutcome.response 500 genericErrorBody) := by
  refine ⟨rfl, ?_, ?_⟩ <;> unfold handlePOST
  · cases hf : falsyStr b.prompt with
    | true => simp [hf]
    | false =>
      rcases hag : agent (buildFullPrompt (b.prompt.getD "") b.filePath b.content) with t | e <;>
        simp [hf, hag]
  · cases hf : falsyStr b.prompt with
    | true => simp [hf]
    | false =>
      rcases hag : agent (buildFullPrompt (b.prompt.getD "") b.filePath b.content) with e | t
      · exact Or.inr (Or.inr (by simp [hf, hag]))
      · exact Or.inr (Or.inl ⟨t, by simp [hf, hag]⟩)

/-- C9: a prompt field equal to the empty string is rejected exactly like an
absent prompt, with status 400 and the prompt-required body, and the agent is
never invoked (the recorded agent-call trace is empty). -/
theorem post_empty_prompt_rejected (fp c : Option String) (agent : String → Except Unit String) :
    handlePOST (some ⟨some "", fp, c⟩) agent = (HandlerOutcome.response 400 promptRequiredBody, []) ∧
    handlePOST (some ⟨none, fp, c⟩) agent = (HandlerOutcome.response 400 promptRequiredBody, []) :=
  ⟨rfl, rfl⟩

/-- C8: listing .git or node_modules returns the protected-path error with an
empty readdir trace, and any other path performs exactly one non-recursive
directory read of the resolved target. -/
theorem list_files_protected_paths (fsRead : String → Except String (List String))
    (p : Option String) (h1 : p ≠ some ".git") (h2 : p ≠ some "node_modules") :
    list_files_execute fsRead (some ".git") =
      (.protectedErr "Cannot list protected path" ".git", []) ∧
    list_files_execute fsRead (some "node_modules") =
      (.protectedErr "Cannot list protected path" "node_modules", []) ∧
    (list_files_execute fsRead p).2 = [(listFilesTarget p, false)] := by
  refine ⟨by simp [list_files_execute], by simp [list_files_execute], ?_⟩
  unfold list_files_execute
  rw [if_neg (by simp [h1, h2])]
  rcases h : fsRead (listFilesTarget p) with out | e <;> simp [h]

/-- C8 witness: a concrete unprotected path is read once, non-recursively. -/
theorem list_files_protected_paths_witness :
    (list_files_execute (fun _ => Except.ok []) (some "docs")).2 =
      [(listFilesTarget (some "docs"), false)] :=
  (list_files_protected_paths (fun _ => Except.ok []) (some "docs")
    (by decide) (by decide)).2.2

/-- C5: on the given HTML input, extract_text_content's HTML branch removes
the script block first, then replaces tags, collapses whitespace and trims,
yielding exactly "Hi there". -/
theorem extract_html_script_example :
    extractHtmlText "<script>evil()</script><p>Hi <b>there</b></p>" = "Hi there" := by
  decide

/-- C2 counterexample: search_document on content abcXYZdef, query XYZ and
contextLength 3 does not return the match text bcXYZde claimed by the spec;
the window of three characters each side clamps to the whole string. -/
theorem search_example_cex :
    (search_document_execute "abcXYZdef" "XYZ" 3).matchList ≠ [⟨"bcXYZde", 3⟩] := by
  decide

/-- C2 amended: search_document.execute on content abcXYZdef, query XYZ and
contextLength 3 returns exactly one match, at position 3, whose text is the
whole string abcXYZdef (the three-character windows on each side reach the
string bounds, and trimming removes nothing). -/
theorem search_example_amended :
    search_document_execute "abcXYZdef" "XYZ" 3 =
      { query := "XYZ", matchList := [⟨"abcXYZdef", 3⟩], totalMatches := 1 } := by
  decide

/-! Helper lemmas about dedupFirst, the Set-spread deduplication. -/

/-- Unfolding of dedupFirstAux on an already-seen head. -/
theorem dedupFirstAux_cons_seen {seen : List String} {y : String} {t : List String}
    (h : seen.contains y = true) :
    dedupFirstAux seen (y :: t) = dedupFirstAux seen t := by
  conv_lhs => rw [dedupFirstAux]
  rw [h]
  simp

/-- Unfolding of dedupFirstAux on a fresh head. -/
theorem dedupFirstAux_cons_fresh {seen : List String} {y : String} {t : List String}
    (h : seen.contains y = false) :
    dedupFirstAux seen (y :: t) = y :: dedupFirstAux (y :: seen) t := by
  conv_lhs => rw [dedupFirstAux]
  rw [h]
  simp

/-- Deduplication yields a sublist of the input, for any seen set. -/
theorem dedupFirstAux_sublist (l : List String) :
    ∀ seen, List.Sublist (dedupFirstAux seen l) l := by
  induction l with
  | nil => intro seen; simp [dedupFirstAux]
  | cons x t ih =>
    intro seen
    cases h : seen.contains x with
    | true =>
      rw [dedupFirstAux_cons_seen h]
      exact (ih seen).cons x
    | false =>
      rw [dedupFirstAux_cons_fresh h]
      exact (ih (x :: seen)).cons₂ x

/-- Membership in the deduplicated list: present in the input and not
already seen. -/
theorem mem_dedupFirstAux (x : String) (l : List String) :
    ∀ seen, x ∈ dedupFirstAux seen l ↔ x ∈ l ∧ x ∉ seen := by
  induction l with
  | nil => intro seen; simp [dedupFirstAux]
  | cons y t ih =>
    intro seen
    cases h : seen.contains y with
    | true =>
      rw [dedupFirstAux_cons_seen h]
      rw [ih seen]
      constructor
      · rintro ⟨hx, hs⟩
        exact ⟨List.mem_cons_of_mem _ hx, hs⟩
      · rintro ⟨hx, hs⟩
        rcases List.mem_cons.mp hx with rfl | hx
        · exact absurd (List.elem_iff.mp h) hs
        · exact ⟨hx, hs⟩
    | false =>
      rw [dedupFirstAux_cons_fresh h]
      constructor
      · intro hx
        rcases List.mem_cons.mp hx with rfl | hx
        · refine ⟨List.mem_cons_self _ _, fun hs => ?_⟩
          exact absurd (List.elem_eq_true_of_mem hs) (by simpa using h)
        · obtain ⟨hxt, hxs⟩ := (ih (y :: seen)).mp hx
          exact ⟨List.mem_cons_of_mem _ hxt, fun hs => hxs (List.mem_cons_of_mem _ hs)⟩
      · rintro ⟨hx, hs⟩
        rcases List.mem_cons.mp hx with rfl | hx
        · exact List.mem_cons_self _ _
        · by_cases hxy : x = y
          · subst hxy; exact List.mem_cons_self _ _
          · exact List.mem_cons_of_mem _ ((ih (y :: seen)).mpr
              ⟨hx, fun hm => by
                rcases List.mem_cons.mp hm with h1 | h1
                · exact hxy h1
                · exact hs h1⟩)

/-- The deduplicated list has no duplicates. -/
theorem dedupFirstAux_nodup (l : List String) : ∀ seen, (dedupFirstAux seen l).Nodup := by
  induction l with
  | nil => intro seen; simp [dedupFirstAux]
  | cons y t ih =>
    intro seen
    cases h : seen.contains y with
    | true =>
      rw [dedupFirstAux_cons_seen h]
      exact ih seen
    | false =>
      rw [dedupFirstAux_cons_fresh h]
      refine List.nodup_cons.mpr ⟨fun hy => ?_, ih (y :: seen)⟩
      exact ((mem_dedupFirstAux y t (y :: seen)).mp hy).2 (List.mem_cons_self y seen)

/-- C6: in full and entities_only modes the entities list is the
deduplication of the concatenated contributions in order (capitalized-word
matches capped at 20, then emails, phone-digit matches and URLs): it has no
duplicates, is a sublist of the concatenation (so contribution order is
preserved), and holds exactly the elements of the concatenation. -/
theorem analyze_entities_dedup_union (content : String) :
    (analyze_document_execute content AnalyzeType.full).entities = some (entitiesOf content) ∧
    (analyze_document_execute content AnalyzeType.entities_only).entities =
      some (entitiesOf content) ∧
    (entitiesOf content).Nodup ∧
    List.Sublist (entitiesOf content) (entityCandidates content) ∧
    (∀ x, x ∈ entitiesOf content ↔ x ∈ entityCandidates content) := by
  refine ⟨by simp [analyze_document_execute], by simp [analyze_document_execute],
    dedupFirstAux_nodup _ _, dedupFirstAux_sublist _ _, fun x => ?_⟩
  rw [entitiesOf, dedupFirst, mem_dedupFirstAux]
  simp

/-! Helper lemmas about the frequency entries and the key order. -/

/-- A key property preserved by one frequency bump. -/
theorem bumpFreq_key_prop (P : String → Prop) (w : String) (acc : List (String × Nat))
    (hacc : ∀ kv ∈ acc, P kv.1) (hw : P w) : ∀ kv ∈ bumpFreq acc w, P kv.1 := by
  induction acc with
  | nil =>
    intro kv hkv
    rcases List.mem_cons.mp hkv with rfl | hkv
    · exact hw
    · simp at hkv
  | cons y t ih =>
    obtain ⟨yk, yn⟩ := y
    intro kv hkv
    unfold bumpFreq at hkv
    by_cases h : yk = w
    · rw [if_pos h] at hkv
      rcases List.mem_cons.mp hkv with rfl | hkv
      · exact hacc (yk, yn) (List.mem_cons_self _ _)
      · exact hacc _ (List.mem_cons_of_mem _ hkv)
    · rw [if_neg h] at hkv
      rcases List.mem_cons.mp hkv with rfl | hkv
      · exact hacc _ (List.mem_cons_self _ _)
      · exact ih (fun x hx => hacc x (List.mem_cons_of_mem _ hx)) kv hkv

/-- A key property preserved by the whole frequency fold. -/
theorem foldl_bumpFreq_key_prop (P : String → Prop) :
    ∀ (ws : List String) (acc : List (String × Nat)),
      (∀ w ∈ ws, P w) → (∀ kv ∈ acc, P kv.1) →
      ∀ kv ∈ ws.foldl bumpFreq acc, P kv.1 := by
  intro ws
  induction ws with
  | nil => intro acc _ hacc kv hkv; simpa using hacc kv hkv
  | cons w t ih =>
    intro acc hws hacc kv hkv
    rw [List.foldl_cons] at hkv
    exact ih (bumpFreq acc w) (fun x hx => hws x (List.mem_cons_of_mem _ hx))
      (bumpFreq_key_prop P w acc hacc (hws w (List.mem_cons_self _ _))) kv hkv

/-- With no array-index key present, Object.entries order is plain insertion
order. -/
theorem jsOwnKeyOrder_of_no_index (entries : List (String × Nat))
    (h : ∀ kv ∈ entries, isArrayIndexStr kv.1 = false) :
    jsOwnKeyOrder entries = entries := by
  unfold jsOwnKeyOrder
  have h1 : entries.filter (fun kv => isArrayIndexStr kv.1) = [] :=
    List.filter_eq_nil_iff.mpr (fun kv hkv => by simp [h kv hkv])
  have h2 : entries.filter (fun kv => !isArrayIndexStr kv.1) = entries :=
    List.filter_eq_self.mpr (fun kv hkv => by simp [h kv hkv])
  rw [h1, h2]
  simp

/-- C3 counterexample: on content zzzz 1234 both tokens occur once, zzzz is
encountered first, yet the code ranks 1234 first, because the frequency
record orders the canonical array-index key 1234 ahead of ordinary string
keys before the stable sort runs. -/
theorem analyze_topics_tie_order_cex :
    (analyze_document_execute "zzzz 1234" AnalyzeType.topics_only).topics =
      some ["1234", "zzzz"] ∧
    specTopicsOf "zzzz 1234" = ["zzzz", "1234"] ∧
    (analyze_document_execute "zzzz 1234" AnalyzeType.topics_only).topics ≠
      some (specTopicsOf "zzzz 1234") := by
  refine ⟨by decide, by decide, by decide⟩

/-- C3 amended: whenever no counted token is a canonical array-index string
(an all-digit numeral), the topics list is the at-most-10 counted tokens
ranked by descending occurrence count with ties in first-encountered order;
all-digit tokens are instead hoisted to the front of the entry order by the
ECMAScript own-key rule before sorting. -/
theorem analyze_topics_first_encountered (content : String)
    (h : ∀ w ∈ countedWords content, isArrayIndexStr w = false) :
    (analyze_document_execute content AnalyzeType.topics_only).topics =
      some (specTopicsOf content) ∧
    (analyze_document_execute content AnalyzeType.full).topics = some (specTopicsOf content) := by
  have hkeys : ∀ kv ∈ freqEntries (countedWords content), isArrayIndexStr kv.1 = false :=
    foldl_bumpFreq_key_prop (fun w => isArrayIndexStr w = false)
      (countedWords content) [] h (by simp)
  have htop : topicsOf content = specTopicsOf content := by
    unfold topicsOf specTopicsOf
    rw [jsOwnKeyOrder_of_no_index _ hkeys]
  constructor <;> simp [analyze_document_execute, htop]

/-- C3 witness: a concrete content with a tie between two alphabetic tokens,
where the amended theorem applies. -/
theorem analyze_topics_first_encountered_witness :
    (∀ w ∈ countedWords "alpha beta alpha", isArrayIndexStr w = false) ∧
    (analyze_document_execute "alpha beta alpha" AnalyzeType.topics_only).topics =
      some (specTopicsOf "alpha beta alpha") :=
  ⟨by decide, (analyze_topics_first_encountered "alpha beta alpha" (by decide)).1⟩

/-! Helper lemmas about the summary fragments. -/

/-- A fragment kept by the trimmed-length filter is nonempty. -/
theorem fragmentsOf_ne_nil (content : String) (f : List Char) (hf : f ∈ fragmentsOf content) :
    f ≠ [] := by
  intro hnil
  have hp := List.of_mem_filter hf
  rw [hnil] at hp
  simp [jsTrimList] at hp

/-- The summary computation agrees with the spec description whenever at
least one fragment survives the filter. -/
theorem summaryOf_eq_spec (content : String) (h : fragmentsOf content ≠ []) :
    summaryOf content = specSummaryOf content := by
  have hlen : 0 < (fragmentsOf content).length := List.length_pos.mpr h
  have h2 : (fragmentsOf content).length / 2 < (fragmentsOf content).length :=
    Nat.div_lt_self hlen (by omega)
  have h1 : (fragmentsOf content).length - 1 < (fragmentsOf content).length := by omega
  have e0 := List.get?_eq_get (l := fragmentsOf content) hlen
  have e2 := List.get?_eq_get h2
  have e1 := List.get?_eq_get h1
  have ha : (fragmentsOf content).get ⟨0, hlen⟩ ≠ [] :=
    fragmentsOf_ne_nil content _ (List.get?_mem e0)
  have hb : (fragmentsOf content).get ⟨(fragmentsOf content).length / 2, h2⟩ ≠ [] :=
    fragmentsOf_ne_nil content _ (List.get?_mem e2)
  have hc : (fragmentsOf content).get ⟨(fragmentsOf content).length - 1, h1⟩ ≠ [] :=
    fragmentsOf_ne_nil content _ (List.get?_mem e1)
  simp only [summaryOf, specSummaryOf]
  rw [e0, e2, e1, List.getD_eq_get?, List.getD_eq_get?, List.getD_eq_get?, e0, e2, e1]
  simp only [List.get_eq_getElem] at ha hb hc
  simp [List.filterMap_cons, ha, hb, hc, jsJoin, String.append_assoc]

/-- C4: with a nonempty fragment list, the summary in summary_only and full
modes is the trimmed fragments at index 0, at half the count rounded down,
and at the count minus one, joined with ". " and a trailing period. -/
theorem analyze_summary_three_fragments (content : String) (h : fragmentsOf content ≠ []) :
    (analyze_document_execute content AnalyzeType.summary_only).summary =
      some (specSummaryOf content) ∧
    (analyze_document_execute content AnalyzeType.full).summary =
      some (specSummaryOf content) := by
  have hs := summaryOf_eq_spec content h
  constructor <;> simp [analyze_document_execute, hs]

/-- C4 witness: a concrete two-fragment content where the theorem applies. -/
theorem analyze_summary_three_fragments_witness :
    fragmentsOf "aaaaaaaaaaaa! bbbbbbbbbbbb" ≠ [] ∧
    (analyze_document_execute "aaaaaaaaaaaa! bbbbbbbbbbbb" AnalyzeType.summary_only).summary =
      some (specSummaryOf "aaaaaaaaaaaa! bbbbbbbbbbbb") :=
  ⟨by decide, (analyze_summary_three_fragments "aaaaaaaaaaaa! bbbbbbbbbbbb" (by decide)).1⟩

/-! Helper lemmas for the ISO-8601 timestamp of save_analysis. -/

/-- A single decimal digit renders as a digit character. -/
theorem digitChar_isDigit (n : Nat) (h : n < 10) : (Nat.digitChar n).isDigit = true := by
  interval_cases n <;> decide

/-- Rendering then reading a single decimal digit is the identity. -/
theorem digitVal_digitChar (n : Nat) (h : n < 10) : digitVal (Nat.digitChar n) = n := by
  interval_cases n <;> decide

/-- The formatted timestamp of any calendar-valid Date passes the ISO-8601
structural check. -/
theorem isValidISO8601_toISOString (t : DateTime) (h : t.Valid) :
    isValidISO8601 (toISOString t) = true := by
  obtain ⟨hy, hm1, hm2, hd1, hd2, hh, hmi, hs, hms⟩ := h
  have m10 : ∀ x : Nat, x % 10 < 10 := fun x => Nat.mod_lt _ (by omega)
  unfold toISOString isValidISO8601
  simp only [String.toList, List.all_cons, List.all_nil, Bool.and_eq_true, beq_iff_eq,
    decide_eq_true_eq, Bool.and_true]
  repeat' apply And.intro
  all_goals first
    | trivial
    | exact digitChar_isDigit _ (m10 _)
    | (rw [digitVal_digitChar _ (m10 _), digitVal_digitChar _ (m10 _)]; omega)

/-- C7: the payload written by save_analysis is the validated analysis data
with exactly one added field generatedAt: every provided field appears with
its original value, generatedAt is fresh, and its value is a structurally
valid ISO-8601 timestamp. -/
theorem save_analysis_roundtrip (d : AnalysisData) (t : DateTime) (h : t.Valid) :
    save_analysis_payload d (toISOString t) =
      analysisDataJson d ++ [("generatedAt", JsonVal.str (toISOString t))] ∧
    (∀ kv ∈ analysisDataJson d, kv ∈ save_analysis_payload d (toISOString t)) ∧
    "generatedAt" ∉ (analysisDataJson d).map Prod.fst ∧
    isValidISO8601 (toISOString t) = true := by
  refine ⟨rfl, fun kv hkv => List.mem_append_left _ hkv, ?_, isValidISO8601_toISOString t h⟩
  unfold analysisDataJson
  rcases hkp : d.keyPoints with _ | kp <;> rcases hen : d.entities with _ | en <;>
    rcases htp : d.topics with _ | tp <;> simp

/-- C7 witness: a concrete analysis record and a concrete valid Date. -/
theorem save_analysis_roundtrip_witness :
    (DateTime.mk 2024 5 17 12 34 56 789).Valid ∧
    isValidISO8601 (toISOString (DateTime.mk 2024 5 17 12 34 56 789)) = true :=
  ⟨by decide,
    (save_analysis_roundtrip ⟨"a.txt", "sum", none, none, none, 3, "src.txt"⟩
      (DateTime.mk 2024 5 17 12 34 56 789) (by decide)).2.2.2⟩

/-! Helper lemmas for the search scan. -/

/-- A found index really is a case-insensitive occurrence of the pattern. -/
theorem findIndexCI_startsWith (pat : List Char) :
    ∀ (l : List Char) (off : Nat), findIndexCI pat l = some off →
      startsWithCI pat (l.drop off) = true := by
  intro l
  induction l with
  | nil =>
    intro off hoff
    unfold findIndexCI at hoff
    by_cases hs : startsWithCI pat [] = true
    · rw [if_pos hs] at hoff
      cases hoff
      simpa using hs
    · rw [if_neg hs] at hoff
      cases hoff
  | cons c t ih =>
    intro off hoff
    unfold findIndexCI at hoff
    by_cases hs : startsWithCI pat (c :: t) = true
    · rw [if_pos hs] at hoff
      cases hoff
      simpa using hs
    · rw [if_neg hs] at hoff
      obtain ⟨off2, hoff2, rfl⟩ := Option.map_eq_some'.mp hoff
      simpa [List.drop_succ_cons] using ih off2 hoff2

/-- Every match the scan emits carries the trimmed clamped window as its
text, and its position is a case-insensitive occurrence of the query. -/
theorem searchScanAux_props (content q : List Char) (ctx : Nat) :
    ∀ (fuel i : Nat) (m : SearchMatch), m ∈ searchScanAux content q ctx fuel i →
      m.text = String.mk (jsTrimList (contextWindow content m.position q.length ctx)) ∧
      startsWithCI q (content.drop m.position) = true := by
  intro fuel
  induction fuel with
  | zero => intro i m hm; simp [searchScanAux] at hm
  | succ fuel ih =>
    intro i m hm
    unfold searchScanAux at hm
    rcases hfind : findIndexCI q (content.drop i) with _ | off
    · rw [hfind] at hm
      simp at hm
    · rw [hfind] at hm
      rcases List.mem_cons.mp hm with rfl | hm2
      · refine ⟨rfl, ?_⟩
        have hsw := findIndexCI_startsWith q (content.drop i) off hfind
        rw [List.drop_drop] at hsw
        exact hsw
      · exact ih _ m hm2

/-- Dropping a matched whitespace run never lengthens a list. -/
theorem dropWhile_length_le (p : Char → Bool) (l : List Char) :
    (l.dropWhile p).length ≤ l.length :=
  (List.dropWhile_suffix p).length_le

/-- Trimming never lengthens a list. -/
theorem jsTrimList_length_le (l : List Char) : (jsTrimList l).length ≤ l.length := by
  unfold jsTrimList
  have h1 := dropWhile_length_le isJsWhitespace l
  have h2 := dropWhile_length_le isJsWhitespace (l.dropWhile isJsWhitespace).reverse
  simp only [List.length_reverse] at h2 ⊢
  omega

/-- Trimming a list with whitespace at either edge strictly shortens it. -/
theorem jsTrimList_length_lt (l : List Char)
    (h : (∃ c, l.head? = some c ∧ isJsWhitespace c = true) ∨
         (∃ c, l.getLast? = some c ∧ isJsWhitespace c = true)) :
    (jsTrimList l).length < l.length := by
  rcases h with ⟨c, hc, hw⟩ | ⟨c, hc, hw⟩
  · rcases l with _ | ⟨a, t⟩
    · simp at hc
    · have hac : a = c := by simpa using hc
      subst hac
      unfold jsTrimList
      rw [List.dropWhile_cons, if_pos hw]
      have h1 := dropWhile_length_le isJsWhitespace t
      have h2 := dropWhile_length_le isJsWhitespace (t.dropWhile isJsWhitespace).reverse
      simp only [List.length_reverse] at h2 ⊢
      simp only [List.length_cons]
      omega
  · by_cases hA : l.dropWhile isJsWhitespace = []
    · unfold jsTrimList
      rw [hA]
      simp only [List.reverse_nil, List.dropWhile_nil, List.length_nil]
      rcases l with _ | ⟨a, t⟩
      · simp at hc
      · simp
    · obtain ⟨pre, hpre⟩ := List.dropWhile_suffix (l := l) isJsWhitespace
      have hlastA : (l.dropWhile isJsWhitespace).getLast? = some c := by
        rw [← hpre, List.getLast?_append] at hc
        rcases hAl : (l.dropWhile isJsWhitespace).getLast? with _ | x
        · exact absurd (List.getLast?_eq_none_iff.mp hAl) hA
        · rw [hAl] at hc
          simpa using hc
      have hrev : (l.dropWhile isJsWhitespace).reverse.head? = some c := by
        rw [List.head?_reverse]
        exact hlastA
      rcases hrevA : (l.dropWhile isJsWhitespace).reverse with _ | ⟨a, rt⟩
      · rw [hrevA] at hrev
        simp at hrev
      · have hac : a = c := by
          rw [hrevA] at hrev
          simpa using hrev
        subst hac
        unfold jsTrimList
        rw [hrevA, List.dropWhile_cons, if_pos hw]
        have h3 := dropWhile_length_le isJsWhitespace rt
        have hAlen : (l.dropWhile isJsWhitespace).length = rt.length + 1 := by
          have hh := congrArg List.length hrevA
          simpa using hh
        have hAle : (l.dropWhile isJsWhitespace).length ≤ l.length :=
          dropWhile_length_le _ _
        simp only [List.length_reverse]
        omega

/-- C10: every returned match text is the trim of the clamped context
window around its position (strictly shorter than the window whenever the
window starts or ends with whitespace), and the position is the untrimmed
offset of a case-insensitive occurrence of the query in the content. -/
theorem search_matches_trimmed (content query : String) (ctx : Nat) (m : SearchMatch)
    (hm : m ∈ (search_document_execute content query ctx).matchList) :
    m.text = String.mk (jsTrimList (contextWindow content.toList m.position
      query.toList.length ctx)) ∧
    (((∃ c, (contextWindow content.toList m.position query.toList.length ctx).head? = some c ∧
          isJsWhitespace c = true) ∨
      (∃ c, (contextWindow content.toList m.position query.toList.length ctx).getLast? = some c ∧
          isJsWhitespace c = true)) →
      m.text.length < (contextWindow content.toList m.position query.toList.length ctx).length) ∧
    startsWithCI query.toList (content.toList.drop m.position) = true := by
  have hm2 : m ∈ searchScanAux content.toList query.toList ctx (content.toList.length + 1) 0 := hm
  have hp := searchScanAux_props content.toList query.toList ctx _ 0 m hm2
  refine ⟨hp.1, fun hws => ?_, hp.2⟩
  rw [hp.1]
  exact jsTrimList_length_lt _ hws

/-- C10 witness: a concrete match whose text is the trimmed window. -/
theorem search_matches_trimmed_witness :
    (⟨"b XYZ c", 3⟩ : SearchMatch) ∈ (search_document_execute "ab XYZ cd" "XYZ" 2).matchList ∧
    (⟨"b XYZ c", 3⟩ : SearchMatch).text =
      String.mk (jsTrimList (contextWindow "ab XYZ cd".toList 3 "XYZ".toList.length 2)) :=
  ⟨by decide, (search_matches_trimmed "ab XYZ cd" "XYZ" 2 ⟨"b XYZ c", 3⟩ (by decide)).1⟩
